import Mathlib

/-!
Verification of NoobBook's specified agentic tool-execution orchestrator and
two frontend state handlers (`ResearchTab.handleAddLink`,
`GoogleDriveTab` folder navigation), as a shallow embedding in Lean 4.
-/

namespace NoobBook

/-! ## ResearchTab (src/frontend/src/components/sources/ResearchTab.tsx)

The link list of the deep-research form.  `new URL(s)` of the browser is
modelled as an abstract validity predicate `isURL : String → Bool`: the
handler's control flow only branches on whether the constructor throws. -/

/-- Embedding of `handleAddLink` (ResearchTab.tsx lines 48–72): trim the
input; if empty do nothing; if it parses as a URL append it unless already
present; otherwise retry with an `https://` prefix; if still invalid leave
the list unchanged.  Returns the updated `links` state. -/
def handleAddLink (isURL : String → Bool) (links : List String)
    (newLink : String) : List String :=
  let trimmedLink := newLink.trim
  if trimmedLink = "" then links
  else if isURL trimmedLink then
    if trimmedLink ∈ links then links else links ++ [trimmedLink]
  else
    let withProtocol := "https://" ++ trimmedLink
    if isURL withProtocol then
      if withProtocol ∈ links then links else links ++ [withProtocol]
    else links

/-- Embedding of `handleRemoveLink` (ResearchTab.tsx lines 77–79):
`links.filter(link => link !== linkToRemove)`. -/
def handleRemoveLink (links : List String) (linkToRemove : String) :
    List String :=
  links.filter (fun link => link ≠ linkToRemove)

/-- The operations the ResearchTab component performs on its `links` state:
adding via `handleAddLink`, removing via `handleRemoveLink`, and the reset
to `[]` done by `handleResearch` on success. -/
inductive LinkOp
  | add (newLink : String)
  | remove (link : String)
  | reset

/-- One state update of the `links` state. -/
def applyLinkOp (isURL : String → Bool) (links : List String) :
    LinkOp → List String
  | .add s => handleAddLink isURL links s
  | .remove s => handleRemoveLink links s
  | .reset => []

/-- The `links` state after a sequence of component operations, starting
from the initial `useState<string[]>([])`. -/
def runLinkOps (isURL : String → Bool) (ops : List LinkOp) : List String :=
  ops.foldl (applyLinkOp isURL) []

/-! ## GoogleDriveTab (src/frontend/src/components/sources/GoogleDriveTab.tsx)

Folder navigation stack. -/

/-- The fields of a Google Drive file relevant to folder navigation
(`GoogleFile` in the frontend API types). -/
structure GoogleFile where
  id : String
  name : String
  deriving DecidableEq, Repr

/-- One entry of the navigation stack: `{ id: string | null; name: string }`. -/
structure FolderEntry where
  id : Option String
  name : String
  deriving DecidableEq, Repr

/-- The root entry `{ id: null, name: 'My Drive' }`. -/
def rootEntry : FolderEntry := { id := none, name := "My Drive" }

/-- The initial `folderStack` state (GoogleDriveTab.tsx lines 61–63). -/
def initialFolderStack : List FolderEntry := [rootEntry]

/-- Embedding of `handleFolderClick` (lines 147–149):
`setFolderStack([...folderStack, { id: folder.id, name: folder.name }])`. -/
def handleFolderClick (folderStack : List FolderEntry) (folder : GoogleFile) :
    List FolderEntry :=
  folderStack ++ [{ id := some folder.id, name := folder.name }]

/-- Embedding of `handleBack` (lines 151–155): pop the last entry via
`folderStack.slice(0, -1)` only when `folderStack.length > 1`. -/
def handleBack (folderStack : List FolderEntry) : List FolderEntry :=
  if 1 < folderStack.length then folderStack.dropLast else folderStack

/-- The navigation events that update `folderStack`. -/
inductive DriveNavOp
  | click (folder : GoogleFile)
  | back

/-- One navigation state update. -/
def applyNavOp (folderStack : List FolderEntry) :
    DriveNavOp → List FolderEntry
  | .click f => handleFolderClick folderStack f
  | .back => handleBack folderStack

/-- The `folderStack` state after a sequence of navigation events, from the
initial stack. -/
def runNavOps (ops : List DriveNavOp) : List FolderEntry :=
  ops.foldl applyNavOp initialFolderStack

/-! ## Agentic orchestrator data model

The orchestrator itself is not part of the shipped sources; it is described
by the repository's architecture guide (REFACTORING.md) and fully specified
in the design spec §2–§4.  Every definition in this section is therefore a
model of the spec, marked as such. -/

/-- Modelled from the spec: message roles (§3, Message):
`user | assistant | tool_result`. -/
inductive Role
  | user
  | assistant
  | toolResultRole
  deriving DecidableEq, Repr

/-- Modelled from the spec: a ToolInvocationRequest (§3) emitted by the
Model Client: tool name, unique invocation identifier, input payload. -/
structure ToolInvocationRequest where
  name : String
  id : String
  input : String
  deriving DecidableEq, Repr

/-- Modelled from the spec: the taxonomy tags of tool-level failures (§7):
`UnknownTool`, `SchemaViolation`, `ExecutorFailure`. -/
inductive ErrTag
  | unknownTool
  | schemaViolation
  | executorFailure
  deriving DecidableEq, Repr

/-- Modelled from the spec: a ToolResult (§3): the invocation identifier it
answers, a success/failure flag, a result payload or error description, and
(for failures) the taxonomy tag fed back to the model (§7). -/
structure ToolResult where
  id : String
  success : Bool
  output : String
  tag : Option ErrTag
  deriving DecidableEq, Repr

/-- Modelled from the spec: one content block of a message (§3): text,
tool-invocation-request, or tool-result-payload. -/
inductive ContentBlock
  | text (s : String)
  | toolRequest (r : ToolInvocationRequest)
  | toolResultPayload (r : ToolResult)
  deriving DecidableEq, Repr

/-- Modelled from the spec: a Message (§3): a role and an ordered sequence
of content blocks.  (The creation timestamp carries no logic and is
omitted.) -/
structure Message where
  role : Role
  content : List ContentBlock
  deriving DecidableEq, Repr

/-- Modelled from the spec: the result of a Tool Executor call (§6):
`{success: bool, payload | error}`. -/
structure ExecResult where
  success : Bool
  output : String
  deriving DecidableEq, Repr

/-- Modelled from the spec: a ToolDescriptor (§3): unique name, purpose,
input schema (modelled as a validation predicate on payloads), and the
executor reference (modelled as a function from payload to result). -/
structure ToolDescriptor where
  name : String
  purpose : String
  schema : String → Bool
  executor : String → ExecResult

/-- Modelled from the spec: the Tool Registry (§4.2), a read-only mapping
from tool name to descriptor. -/
structure ToolRegistry where
  tools : List ToolDescriptor

/-- Modelled from the spec: the orchestration errors named by the error
taxonomy (§7) that surface from the registry and the Message Log:
`DuplicateTool` and `InvalidSequence`. -/
inductive OrchError
  | duplicateTool
  | invalidSequence
  deriving DecidableEq, Repr

/-- Modelled from the spec: `lookup(name)` (§4.2) — the descriptor of the
given name, if registered. -/
def lookup (reg : ToolRegistry) (name : String) : Option ToolDescriptor :=
  reg.tools.find? (fun d => d.name = name)

/-- Modelled from the spec: `register(descriptor)` (§4.2) — fails with
`DuplicateTool` if the name already exists. -/
def register (reg : ToolRegistry) (d : ToolDescriptor) :
    Except OrchError ToolRegistry :=
  if (lookup reg d.name).isSome then .error .duplicateTool
  else .ok ⟨reg.tools ++ [d]⟩

/-- Modelled from the spec: the Model Client response shape (§6): zero-or-one
text block and zero-or-more tool invocation requests. -/
structure ModelResponse where
  text : Option String
  toolCalls : List ToolInvocationRequest
  deriving DecidableEq, Repr

/-- Modelled from the spec: the Model Client boundary (§6) as a function from
the ordered message snapshot to a response.  (The descriptor set argument is
not consulted by any claim and is elided; the log grows strictly every turn,
so a function of the snapshot can express any per-iteration behaviour.) -/
def ModelClient : Type := List Message → ModelResponse

/-- Modelled from the spec: the stop reasons of the Stop-Condition Evaluator
(§4.5): explicit-termination-tool-invoked, max-iterations-exceeded,
unrecoverable-error. -/
inductive StopReason
  | explicitTermination
  | maxIterations
  | unrecoverableError
  deriving DecidableEq, Repr

/-- Modelled from the spec: the decision of the Stop-Condition Evaluator
(§4.5): "continue", or "stop: <reason>". -/
inductive StopDecision
  | cont
  | stop (r : StopReason)
  deriving DecidableEq, Repr

/-- Modelled from the spec: why a run reached its terminal state — a natural
final answer (§4.3 step 4) or a forced stop with a stop reason
(§4.3 step 6). -/
inductive TerminationReason
  | finalAnswer
  | forcedStop (r : StopReason)
  deriving DecidableEq, Repr

/-- Modelled from the spec: LoopState (§3): current iteration count,
accumulated Message Log, terminal flag, final answer (set only when
terminal), plus the taxonomy-tagged termination reason the caller receives
(§4.3 step 6, §7). -/
structure LoopState where
  iteration : Nat
  log : List Message
  terminal : Bool
  final : Option String
  reason : Option TerminationReason
  deriving DecidableEq, Repr

/-- Modelled from the spec: run configuration (§6, Caller boundary): max
iterations and the reserved explicit-termination tool name (§4.5). -/
structure Config where
  maxIterations : Nat
  terminationTool : String
  deriving DecidableEq, Repr

/-! ## Orchestrator operations (all modelled from the spec) -/

/-- Modelled from the spec: `snapshot()` (§4.1) — the full ordered sequence
of messages for transmission to the Model Client. -/
def snapshot (st : LoopState) : List Message := st.log

/-- Internal storage growth of the Message Log: append one message. -/
def pushMsg (st : LoopState) (m : Message) : LoopState :=
  { st with log := st.log ++ [m] }

/-- Modelled from the spec: `append(message)` (§4.1) — fails with
`InvalidSequence` if called after termination, otherwise appends. -/
def appendMsg (st : LoopState) (m : Message) : Except OrchError LoopState :=
  if st.terminal then .error .invalidSequence else .ok (pushMsg st m)

/-- Modelled from the spec: the assistant's response appended as a Message
(§4.3 step 3): its optional text block followed by its tool invocation
requests, in order. -/
def assistantMessage (resp : ModelResponse) : Message :=
  { role := .assistant
    content := (match resp.text with
      | some t => [ContentBlock.text t]
      | none => []) ++ resp.toolCalls.map ContentBlock.toolRequest }

/-- Modelled from the spec: a ToolResult appended as a `tool_result` Message
(§4.3 step 5). -/
def toolResultMessage (res : ToolResult) : Message :=
  { role := .toolResultRole, content := [ContentBlock.toolResultPayload res] }

/-- Append one `tool_result` message per ToolResult, in order
(§4.3 step 5). -/
def appendResults (st : LoopState) : List ToolResult → LoopState
  | [] => st
  | r :: rs => appendResults (pushMsg st (toolResultMessage r)) rs

/-- Modelled from the spec: tool dispatch of one request (§4.4): unknown
names become a failed ToolResult tagged `UnknownTool`; payloads violating
the schema become a failed ToolResult tagged `SchemaViolation`; an executor
failure becomes a failed ToolResult tagged `ExecutorFailure`; otherwise the
successful executor payload is returned. -/
def dispatch (reg : ToolRegistry) (req : ToolInvocationRequest) : ToolResult :=
  match lookup reg req.name with
  | none =>
      { id := req.id, success := false, output := "UnknownTool"
        tag := some .unknownTool }
  | some d =>
      if d.schema req.input then
        let r := d.executor req.input
        if r.success then
          { id := req.id, success := true, output := r.output, tag := none }
        else
          { id := req.id, success := false, output := r.output
            tag := some .executorFailure }
      else
        { id := req.id, success := false, output := "SchemaViolation"
          tag := some .schemaViolation }

/-- The tool invocation requests contained in a message's content blocks. -/
def toolRequestsOf (m : Message) : List ToolInvocationRequest :=
  m.content.filterMap fun b =>
    match b with
    | .toolRequest r => some r
    | _ => none

/-- The most recent assistant message of the log — the current turn's
response once it has been appended. -/
def lastAssistant (log : List Message) : Option Message :=
  log.reverse.find? (fun m => m.role = .assistant)

/-- Modelled from the spec: the Stop-Condition Evaluator (§4.5), a pure
function of LoopState: stop with `explicit-termination-tool-invoked` when
the current turn invoked the reserved termination tool, stop with
`max-iterations-exceeded` when the iteration count has reached the
configured ceiling, otherwise continue.  (`unrecoverable-error` is the
reason reserved for non-transient Model Client failures, §4.3; the Model
Client boundary of this model is total, so that branch never fires.) -/
def evalStop (cfg : Config) (st : LoopState) : StopDecision :=
  let reqs := match lastAssistant st.log with
    | some m => toolRequestsOf m
    | none => []
  if reqs.any (fun r => r.name = cfg.terminationTool) then
    .stop .explicitTermination
  else if cfg.maxIterations ≤ st.iteration then
    .stop .maxIterations
  else
    .cont

/-- Modelled from the spec: one entry of the Execution Log / Audit Trail
(§2, §6): a Model Client call with its snapshot and response, a tool
dispatch with its request and result, a stop-condition decision, or the
transition to the terminal state. -/
inductive Event
  | modelCall (snap : List Message) (resp : ModelResponse)
  | toolDispatch (req : ToolInvocationRequest) (res : ToolResult)
  | stopCheck (d : StopDecision)
  | terminate (r : TerminationReason)
  deriving DecidableEq, Repr

/-- Modelled from the spec: the Orchestrator's agent loop (§4.3), advancing
a LoopState and recording the audit trail.  Per iteration: snapshot the log
and call the Model Client; append the assistant response; if it holds zero
tool requests, mark terminal with the response text as final answer;
otherwise dispatch every request, append every result, consult the
Stop-Condition Evaluator, and either mark terminal with the forced-stop
reason or increment the iteration count and loop.  The `fuel` argument only
bounds recursion depth; a terminal state is never advanced. -/
def runLoop (cfg : Config) (client : ModelClient) (reg : ToolRegistry) :
    Nat → LoopState → LoopState × List Event
  | 0, st => (st, [])
  | fuel + 1, st =>
    if st.terminal then (st, [])
    else
      let snap := snapshot st
      let resp := client snap
      let st1 := pushMsg st (assistantMessage resp)
      if resp.toolCalls.isEmpty then
        ({ st1 with terminal := true, final := resp.text
                    reason := some .finalAnswer },
         [.modelCall snap resp, .terminate .finalAnswer])
      else
        let results := resp.toolCalls.map (dispatch reg)
        let dispatchEvents := resp.toolCalls.map
          (fun q => Event.toolDispatch q (dispatch reg q))
        let st2 := appendResults st1 results
        match evalStop cfg st2 with
        | .stop r =>
            ({ st2 with terminal := true, reason := some (.forcedStop r) },
             .modelCall snap resp :: dispatchEvents ++
               [.stopCheck (.stop r), .terminate (.forcedStop r)])
        | .cont =>
            let next := runLoop cfg client reg fuel
              { st2 with iteration := st2.iteration + 1 }
            (next.1, .modelCall snap resp :: dispatchEvents ++
               .stopCheck .cont :: next.2)

/-- Modelled from the spec: the LoopState a run starts from (§3, §6): the
initial user message alone in the log, iteration count 1, non-terminal. -/
def initialState (userMsg : String) : LoopState :=
  { iteration := 1
    log := [{ role := .user, content := [.text userMsg] }]
    terminal := false, final := none, reason := none }

/-- Modelled from the spec: `start_run` (§6): run the agent loop on the
initial state.  `maxIterations + 1` recursion fuel always suffices because
the evaluator stops every run at the iteration ceiling. -/
def startRun (cfg : Config) (client : ModelClient) (reg : ToolRegistry)
    (userMsg : String) : LoopState × List Event :=
  runLoop cfg client reg (cfg.maxIterations + 1) (initialState userMsg)

/-! ## Observers on the audit trail and the Message Log -/

/-- Whether an event is a Model Client call. -/
def isModelCall : Event → Bool
  | .modelCall _ _ => true
  | _ => false

/-- Whether an event is the transition to the terminal state. -/
def isTerminate : Event → Bool
  | .terminate _ => true
  | _ => false

/-- Number of Model Client calls recorded in a trail. -/
def countModelCalls (tr : List Event) : Nat := tr.countP isModelCall

/-- Number of terminal transitions recorded in a trail. -/
def terminateCount (tr : List Event) : Nat := tr.countP isTerminate

/-- Number of tool dispatches recorded before the next Model Client call. -/
def dispatchesBeforeNextCall : List Event → Nat
  | [] => 0
  | .modelCall _ _ :: _ => 0
  | .toolDispatch _ _ :: rest => dispatchesBeforeNextCall rest + 1
  | .stopCheck _ :: rest => dispatchesBeforeNextCall rest
  | .terminate _ :: rest => dispatchesBeforeNextCall rest

/-- The pairing invariant on an audit trail (§3, §4.4): after every Model
Client call whose response carries tool invocation requests, exactly one
tool dispatch per request is recorded before the next Model Client call. -/
def pairingOK : List Event → Prop
  | [] => True
  | .modelCall _ resp :: rest =>
      dispatchesBeforeNextCall rest = resp.toolCalls.length ∧ pairingOK rest
  | .toolDispatch _ _ :: rest => pairingOK rest
  | .stopCheck _ :: rest => pairingOK rest
  | .terminate _ :: rest => pairingOK rest

/-- A terminal transition, if recorded at all, closes the trail: nothing is
logged after it. -/
def terminateLast : List Event → Prop
  | [] => True
  | .terminate _ :: rest => rest = []
  | .modelCall _ _ :: rest => terminateLast rest
  | .toolDispatch _ _ :: rest => terminateLast rest
  | .stopCheck _ :: rest => terminateLast rest

/-- The two observable operations of the Message Log (§4.1): `append` and
`snapshot`. -/
inductive LogOp
  | append (m : Message)
  | snap

/-- Apply a sequence of Message Log operations to a LoopState: `append` goes
through the §4.1 contract (a failed append leaves the log unchanged), and
`snapshot` is a pure read. -/
def applyLogOps (st : LoopState) : List LogOp → LoopState
  | [] => st
  | .append m :: ops =>
      (match appendMsg st m with
        | .ok st1 => applyLogOps st1 ops
        | .error _ => applyLogOps st ops)
  | .snap :: ops => applyLogOps st ops

/-- The messages a sequence of Message Log operations appends, in order. -/
def appendedOf (ops : List LogOp) : List Message :=
  ops.filterMap fun op =>
    match op with
    | .append m => some m
    | .snap => none

/-! ## Basic lemmas about one turn of the loop -/

/-- The LoopState after the dispatch phase of one turn: assistant response
appended, then one `tool_result` message per request. -/
def turnState (client : ModelClient) (reg : ToolRegistry) (st : LoopState) :
    LoopState :=
  appendResults (pushMsg st (assistantMessage (client (snapshot st))))
    ((client (snapshot st)).toolCalls.map (dispatch reg))

/-- The dispatch events of one turn, one per request, in request order. -/
def turnEvents (client : ModelClient) (reg : ToolRegistry) (st : LoopState) :
    List Event :=
  (client (snapshot st)).toolCalls.map
    (fun q => Event.toolDispatch q (dispatch reg q))

theorem appendResults_eq (st : LoopState) (rs : List ToolResult) :
    appendResults st rs = { st with log := st.log ++ rs.map toolResultMessage } := by
  induction rs generalizing st with
  | nil => simp [appendResults]
  | cons r rs ih => simp [appendResults, pushMsg, ih]

theorem turnState_iteration (client : ModelClient) (reg : ToolRegistry)
    (st : LoopState) : (turnState client reg st).iteration = st.iteration := by
  simp [turnState, appendResults_eq, pushMsg]

theorem turnState_terminal (client : ModelClient) (reg : ToolRegistry)
    (st : LoopState) : (turnState client reg st).terminal = st.terminal := by
  simp [turnState, appendResults_eq, pushMsg]

theorem runLoop_zero (cfg : Config) (client : ModelClient)
    (reg : ToolRegistry) (st : LoopState) :
    runLoop cfg client reg 0 st = (st, []) := rfl

theorem runLoop_terminal (cfg : Config) (client : ModelClient)
    (reg : ToolRegistry) (fuel : Nat) (st : LoopState)
    (h : st.terminal = true) :
    runLoop cfg client reg (fuel + 1) st = (st, []) := by
  simp [runLoop, h]

theorem runLoop_noTools (cfg : Config) (client : ModelClient)
    (reg : ToolRegistry) (fuel : Nat) (st : LoopState)
    (h : st.terminal = false)
    (hr : (client (snapshot st)).toolCalls = []) :
    runLoop cfg client reg (fuel + 1) st =
      ({ pushMsg st (assistantMessage (client (snapshot st))) with
          terminal := true, final := (client (snapshot st)).text
          reason := some .finalAnswer },
       [.modelCall (snapshot st) (client (snapshot st)),
        .terminate .finalAnswer]) := by
  simp [runLoop, h, hr]

theorem runLoop_stop (cfg : Config) (client : ModelClient)
    (reg : ToolRegistry) (fuel : Nat) (st : LoopState)
    (q : ToolInvocationRequest) (qs : List ToolInvocationRequest)
    (r : StopReason) (h : st.terminal = false)
    (hr : (client (snapshot st)).toolCalls = q :: qs)
    (hd : evalStop cfg (turnState client reg st) = .stop r) :
    runLoop cfg client reg (fuel + 1) st =
      ({ turnState client reg st with
          terminal := true, reason := some (.forcedStop r) },
       .modelCall (snapshot st) (client (snapshot st)) ::
         turnEvents client reg st ++
           [.stopCheck (.stop r), .terminate (.forcedStop r)]) := by
  simp only [turnState] at hd
  rw [hr] at hd
  simp only [List.map_cons] at hd
  simp [runLoop, h, hr, hd, turnState, turnEvents]

theorem runLoop_cont (cfg : Config) (client : ModelClient)
    (reg : ToolRegistry) (fuel : Nat) (st : LoopState)
    (q : ToolInvocationRequest) (qs : List ToolInvocationRequest)
    (h : st.terminal = false)
    (hr : (client (snapshot st)).toolCalls = q :: qs)
    (hd : evalStop cfg (turnState client reg st) = .cont) :
    runLoop cfg client reg (fuel + 1) st =
      ((runLoop cfg client reg fuel
          { turnState client reg st with
              iteration := (turnState client reg st).iteration + 1 }).1,
       .modelCall (snapshot st) (client (snapshot st)) ::
         turnEvents client reg st ++
           .stopCheck .cont ::
             (runLoop cfg client reg fuel
               { turnState client reg st with
                   iteration := (turnState client reg st).iteration + 1 }).2) := by
  simp only [turnState] at hd
  rw [hr] at hd
  simp only [List.map_cons] at hd
  simp [runLoop, h, hr, hd, turnState, turnEvents]

theorem evalStop_cont_lt (cfg : Config) (s : LoopState)
    (h : evalStop cfg s = .cont) : s.iteration < cfg.maxIterations := by
  simp only [evalStop] at h
  split_ifs at h with h1 h2
  omega

theorem iteration_mono (cfg : Config) (client : ModelClient)
    (reg : ToolRegistry) (fuel : Nat) (st : LoopState) :
    st.iteration ≤ (runLoop cfg client reg fuel st).1.iteration := by
  induction fuel generalizing st with
  | zero => simp [runLoop_zero]
  | succ n ih =>
    cases ht : st.terminal with
    | true => simp [runLoop_terminal cfg client reg n st ht]
    | false =>
      cases hr : (client (snapshot st)).toolCalls with
      | nil => simp [runLoop_noTools cfg client reg n st ht hr, pushMsg]
      | cons q qs =>
        cases hd : evalStop cfg (turnState client reg st) with
        | cont =>
          rw [runLoop_cont cfg client reg n st q qs ht hr hd]
          refine Nat.le_trans ?_ (ih _)
          simp [turnState_iteration]
        | stop r =>
          rw [runLoop_stop cfg client reg n st q qs r ht hr hd]
          simp [turnState_iteration]

theorem iteration_bounded (cfg : Config) (client : ModelClient)
    (reg : ToolRegistry) (fuel : Nat) (st : LoopState) :
    st.iteration ≤ cfg.maxIterations →
    (runLoop cfg client reg fuel st).1.iteration ≤ cfg.maxIterations := by
  induction fuel generalizing st with
  | zero => intro hst; simpa [runLoop_zero] using hst
  | succ n ih =>
    intro hst
    cases ht : st.terminal with
    | true => simpa [runLoop_terminal cfg client reg n st ht] using hst
    | false =>
      cases hr : (client (snapshot st)).toolCalls with
      | nil =>
        simpa [runLoop_noTools cfg client reg n st ht hr, pushMsg] using hst
      | cons q qs =>
        cases hd : evalStop cfg (turnState client reg st) with
        | cont =>
          rw [runLoop_cont cfg client reg n st q qs ht hr hd]
          have hlt := evalStop_cont_lt cfg (turnState client reg st) hd
          rw [turnState_iteration] at hlt
          refine ih _ ?_
          simp only [turnState_iteration]
          omega
        | stop r =>
          rw [runLoop_stop cfg client reg n st q qs r ht hr hd]
          simpa [turnState_iteration] using hst

/-! ## Trace-shape lemmas -/

theorem dispatchesBeforeNextCall_dispatchEvents (reg : ToolRegistry)
    (qs : List ToolInvocationRequest) (t : List Event) :
    dispatchesBeforeNextCall
        (qs.map (fun q => Event.toolDispatch q (dispatch reg q)) ++ t) =
      qs.length + dispatchesBeforeNextCall t := by
  induction qs with
  | nil => simp [dispatchesBeforeNextCall]
  | cons q qs ih => simp [dispatchesBeforeNextCall, ih]; omega

theorem pairingOK_dispatchEvents (reg : ToolRegistry)
    (qs : List ToolInvocationRequest) (t : List Event) :
    pairingOK (qs.map (fun q => Event.toolDispatch q (dispatch reg q)) ++ t) ↔
      pairingOK t := by
  induction qs with
  | nil => simp
  | cons q qs ih => simpa [pairingOK] using ih

theorem runLoop_trace_head (cfg : Config) (client : ModelClient)
    (reg : ToolRegistry) (fuel : Nat) (st : LoopState) :
    (runLoop cfg client reg fuel st).2 = [] ∨
      ∃ s r t, (runLoop cfg client reg fuel st).2 = .modelCall s r :: t := by
  cases fuel with
  | zero => exact Or.inl rfl
  | succ n =>
    cases ht : st.terminal with
    | true => exact Or.inl (by rw [runLoop_terminal cfg client reg n st ht])
    | false =>
      cases hr : (client (snapshot st)).toolCalls with
      | nil =>
        exact Or.inr ⟨_, _, _, by rw [runLoop_noTools cfg client reg n st ht hr]⟩
      | cons q qs =>
        cases hd : evalStop cfg (turnState client reg st) with
        | cont =>
          rw [runLoop_cont cfg client reg n st q qs ht hr hd]
          exact Or.inr ⟨_, _, _, rfl⟩
        | stop r =>
          rw [runLoop_stop cfg client reg n st q qs r ht hr hd]
          exact Or.inr ⟨_, _, _, rfl⟩

theorem dispatchesBeforeNextCall_eq_zero {t : List Event}
    (h : t = [] ∨ ∃ s r t', t = .modelCall s r :: t') :
    dispatchesBeforeNextCall t = 0 := by
  rcases h with h | ⟨s, r, t', h⟩ <;> subst h <;> rfl

theorem dispatchesBeforeNextCall_runLoop (cfg : Config) (client : ModelClient)
    (reg : ToolRegistry) (fuel : Nat) (st : LoopState) :
    dispatchesBeforeNextCall (runLoop cfg client reg fuel st).2 = 0 :=
  dispatchesBeforeNextCall_eq_zero (runLoop_trace_head cfg client reg fuel st)

theorem pairing_invariant (cfg : Config) (client : ModelClient)
    (reg : ToolRegistry) (fuel : Nat) (st : LoopState) :
    pairingOK (runLoop cfg client reg fuel st).2 := by
  induction fuel generalizing st with
  | zero => simp [runLoop_zero, pairingOK]
  | succ n ih =>
    cases ht : st.terminal with
    | true => simp [runLoop_terminal cfg client reg n st ht, pairingOK]
    | false =>
      cases hr : (client (snapshot st)).toolCalls with
      | nil =>
        rw [runLoop_noTools cfg client reg n st ht hr]
        simp [pairingOK, dispatchesBeforeNextCall, hr]
      | cons q qs =>
        cases hd : evalStop cfg (turnState client reg st) with
        | cont =>
          rw [runLoop_cont cfg client reg n st q qs ht hr hd]
          refine ⟨?_, ?_⟩
          · simp only [turnEvents, hr, List.append_eq]
            rw [dispatchesBeforeNextCall_dispatchEvents]
            simp [dispatchesBeforeNextCall, dispatchesBeforeNextCall_runLoop]
          · simp only [turnEvents, hr, List.append_eq]
            rw [pairingOK_dispatchEvents]
            exact ih _
        | stop r =>
          rw [runLoop_stop cfg client reg n st q qs r ht hr hd]
          refine ⟨?_, ?_⟩
          · simp only [turnEvents, hr, List.append_eq]
            rw [dispatchesBeforeNextCall_dispatchEvents]
            simp [dispatchesBeforeNextCall]
          · simp only [turnEvents, hr, List.append_eq]
            rw [pairingOK_dispatchEvents]
            simp [pairingOK]

theorem terminateLast_dispatchEvents (reg : ToolRegistry)
    (qs : List ToolInvocationRequest) (t : List Event) :
    terminateLast (qs.map (fun q => Event.toolDispatch q (dispatch reg q)) ++ t) ↔
      terminateLast t := by
  induction qs with
  | nil => simp
  | cons q qs ih => simpa [terminateLast] using ih

theorem countP_isTerminate_dispatchEvents (reg : ToolRegistry)
    (qs : List ToolInvocationRequest) :
    List.countP isTerminate
      (qs.map (fun q => Event.toolDispatch q (dispatch reg q))) = 0 := by
  induction qs with
  | nil => simp
  | cons q qs ih => simp [List.countP_cons, isTerminate, ih]

theorem terminateLast_runLoop (cfg : Config) (client : ModelClient)
    (reg : ToolRegistry) (fuel : Nat) (st : LoopState) :
    terminateLast (runLoop cfg client reg fuel st).2 := by
  induction fuel generalizing st with
  | zero => simp [runLoop_zero, terminateLast]
  | succ n ih =>
    cases ht : st.terminal with
    | true => simp [runLoop_terminal cfg client reg n st ht, terminateLast]
    | false =>
      cases hr : (client (snapshot st)).toolCalls with
      | nil =>
        rw [runLoop_noTools cfg client reg n st ht hr]
        simp [terminateLast]
      | cons q qs =>
        cases hd : evalStop cfg (turnState client reg st) with
        | cont =>
          rw [runLoop_cont cfg client reg n st q qs ht hr hd]
          simp only [terminateLast, turnEvents, hr, List.append_eq, List.map_cons,
            List.cons_append]
          rw [terminateLast_dispatchEvents]
          simpa [terminateLast] using ih _
        | stop r =>
          rw [runLoop_stop cfg client reg n st q qs r ht hr hd]
          simp only [terminateLast, turnEvents, hr, List.append_eq, List.map_cons,
            List.cons_append]
          rw [terminateLast_dispatchEvents]
          simp [terminateLast]

theorem terminateCount_runLoop (cfg : Config) (client : ModelClient)
    (reg : ToolRegistry) (fuel : Nat) (st : LoopState)
    (ht : st.terminal = false) :
    ((runLoop cfg client reg fuel st).1.terminal = true →
      terminateCount (runLoop cfg client reg fuel st).2 = 1) ∧
    ((runLoop cfg client reg fuel st).1.terminal = false →
      terminateCount (runLoop cfg client reg fuel st).2 = 0) := by
  induction fuel generalizing st with
  | zero => simp [runLoop_zero, terminateCount, ht]
  | succ n ih =>
    cases hr : (client (snapshot st)).toolCalls with
    | nil =>
      rw [runLoop_noTools cfg client reg n st ht hr]
      simp [terminateCount, isTerminate]
    | cons q qs =>
      cases hd : evalStop cfg (turnState client reg st) with
      | cont =>
        rw [runLoop_cont cfg client reg n st q qs ht hr hd]
        have hS : ({ turnState client reg st with
            iteration := (turnState client reg st).iteration + 1 } :
              LoopState).terminal = false := by
          simp [turnState_terminal, ht]
        have h2 := ih _ hS
        simp only [terminateCount, isTerminate, List.countP_cons, List.countP_append,
          turnEvents, hr, countP_isTerminate_dispatchEvents] at h2 ⊢
        simpa using h2
      | stop r =>
        rw [runLoop_stop cfg client reg n st q qs r ht hr hd]
        simp only [terminateCount, isTerminate, List.countP_cons, List.countP_append,
          turnEvents, hr, countP_isTerminate_dispatchEvents]
        simp

/-! ## Claim theorems -/

/-- An empty tool registry, used by the concrete scenarios. -/
def reg₀ : ToolRegistry := ⟨[]⟩

/-- Claim C1: the iteration count is monotonically non-decreasing over any
run segment, never exceeds the configured maximum (so at termination it is
at most that maximum), and in the concrete scenario with max iterations 3
and a Model Client that always requests another tool call, the run ends
terminal at iteration 3 with reason max-iterations-exceeded after exactly 3
Model Client calls — a 4th never occurs. -/
theorem orchestrator_iteration_invariant :
    (∀ (cfg : Config) (client : ModelClient) (reg : ToolRegistry)
        (fuel : Nat) (st : LoopState),
      st.iteration ≤ (runLoop cfg client reg fuel st).1.iteration) ∧
    (∀ (cfg : Config) (client : ModelClient) (reg : ToolRegistry)
        (fuel : Nat) (st : LoopState),
      st.iteration ≤ cfg.maxIterations →
      (runLoop cfg client reg fuel st).1.iteration ≤ cfg.maxIterations) ∧
    (let cfg : Config := { maxIterations := 3, terminationTool := "finish" }
     let client : ModelClient := fun _ =>
       { text := none
         toolCalls := [{ name := "read_document", id := "t1", input := "42" }] }
     let run := startRun cfg client reg₀ "go"
     run.1.terminal = true ∧ run.1.iteration = 3 ∧
       run.1.reason = some (.forcedStop .maxIterations) ∧
       countModelCalls run.2 = 3) := by
  refine ⟨iteration_mono, iteration_bounded, ?_⟩
  decide

/-- Claim C2: in every run, a turn whose assistant response carries tool
invocation requests records exactly one tool dispatch per request before the
next Model Client call (pairing invariant on the audit trail); appending the
results grows the Message Log by exactly one `tool_result` message per
result, and dispatch produces exactly one ToolResult per request. -/
theorem tool_result_pairing :
    (∀ (cfg : Config) (client : ModelClient) (reg : ToolRegistry)
        (fuel : Nat) (st : LoopState),
      pairingOK (runLoop cfg client reg fuel st).2) ∧
    (∀ (st : LoopState) (rs : List ToolResult),
      (appendResults st rs).log.length = st.log.length + rs.length) ∧
    (∀ (reg : ToolRegistry) (qs : List ToolInvocationRequest),
      (qs.map (dispatch reg)).length = qs.length) := by
  refine ⟨pairing_invariant, ?_, ?_⟩
  · intro st rs
    simp [appendResults_eq]
  · intro reg qs
    simp

theorem applyLogOps_spec (ops : List LogOp) (st : LoopState)
    (h : st.terminal = false) :
    snapshot (applyLogOps st ops) = snapshot st ++ appendedOf ops ∧
      (applyLogOps st ops).terminal = false := by
  induction ops generalizing st with
  | nil => simp [applyLogOps, appendedOf, h]
  | cons op ops ih =>
    cases op with
    | append m =>
      have hp : (pushMsg st m).terminal = false := by simp [pushMsg, h]
      have h2 := ih (pushMsg st m) hp
      have hstep : applyLogOps st (LogOp.append m :: ops) =
          applyLogOps (pushMsg st m) ops := by
        simp [applyLogOps, appendMsg, h]
      constructor
      · rw [hstep, h2.1]
        simp [snapshot, pushMsg, appendedOf]
      · rw [hstep]
        exact h2.2
    | snap =>
      have := ih st h
      simpa [applyLogOps, appendedOf] using this

/-- Claim C3: a `snapshot()` taken after any interleaving of appends and
snapshots on a live Message Log returns the prior log followed by exactly
the appended messages, in append order — nothing omitted, reordered or
deleted — and `snapshot` itself never changes the log. -/
theorem message_log_snapshot_order :
    (∀ (st : LoopState) (ops : List LogOp), st.terminal = false →
      snapshot (applyLogOps st ops) = snapshot st ++ appendedOf ops) ∧
    (∀ (st : LoopState), applyLogOps st [LogOp.snap] = st) := by
  constructor
  · intro st ops h
    exact (applyLogOps_spec ops st h).1
  · intro st
    rfl

/-- Witness for C3: two appends with a snapshot interleaved, on a fresh
run's log. -/
theorem message_log_snapshot_order_witness :
    (initialState "hi").terminal = false ∧
    snapshot (applyLogOps (initialState "hi")
        [LogOp.append { role := .user, content := [.text "a"] }, LogOp.snap,
         LogOp.append { role := .assistant, content := [.text "b"] }]) =
      snapshot (initialState "hi") ++
        appendedOf
          [LogOp.append { role := .user, content := [.text "a"] }, LogOp.snap,
           LogOp.append { role := .assistant, content := [.text "b"] }] :=
  ⟨rfl, message_log_snapshot_order.1 (initialState "hi") _ rfl⟩

/-- Claim C5: whenever the Model Client response for the current snapshot
contains zero ToolInvocationRequests, the loop marks the LoopState terminal
with that response's text as the final answer, and that turn's Model Client
call is the only one the run makes from there on. -/
theorem zero_requests_terminates (cfg : Config) (client : ModelClient)
    (reg : ToolRegistry) (fuel : Nat) (st : LoopState)
    (ht : st.terminal = false)
    (hr : (client (snapshot st)).toolCalls = []) :
    (runLoop cfg client reg (fuel + 1) st).1.terminal = true ∧
    (runLoop cfg client reg (fuel + 1) st).1.final = (client (snapshot st)).text ∧
    (runLoop cfg client reg (fuel + 1) st).1.reason = some .finalAnswer ∧
    countModelCalls (runLoop cfg client reg (fuel + 1) st).2 = 1 := by
  rw [runLoop_noTools cfg client reg fuel st ht hr]
  simp [countModelCalls, isModelCall]

/-- Witness for C5: a client that answers with plain text at once. -/
theorem zero_requests_terminates_witness :
    (initialState "q").terminal = false ∧
    ({ text := some "answer", toolCalls := [] } : ModelResponse).toolCalls = [] ∧
    (runLoop { maxIterations := 3, terminationTool := "finish" }
        (fun _ => { text := some "answer", toolCalls := [] }) reg₀ 1
        (initialState "q")).1.terminal = true :=
  ⟨rfl, rfl,
   (zero_requests_terminates { maxIterations := 3, terminationTool := "finish" }
     (fun _ => { text := some "answer", toolCalls := [] }) reg₀ 0
     (initialState "q") rfl rfl).1⟩

/-- Claim C6: the Stop-Condition Evaluator is a pure function of LoopState —
two states agreeing on every LoopState field receive the identical decision,
and every decision is "continue" or "stop" with a reason drawn from
explicit-termination-tool-invoked, max-iterations-exceeded,
unrecoverable-error. -/
theorem stop_evaluator_deterministic :
    (∀ (cfg : Config) (s t : LoopState),
      s.iteration = t.iteration → s.log = t.log → s.terminal = t.terminal →
      s.final = t.final → s.reason = t.reason →
      evalStop cfg s = evalStop cfg t) ∧
    (∀ (cfg : Config) (s : LoopState),
      evalStop cfg s = .cont ∨
      evalStop cfg s = .stop .explicitTermination ∨
      evalStop cfg s = .stop .maxIterations ∨
      evalStop cfg s = .stop .unrecoverableError) := by
  constructor
  · intro cfg s t h1 h2 h3 h4 h5
    cases s
    cases t
    simp_all
  · intro cfg s
    simp only [evalStop]
    split_ifs <;> simp

/-- Witness for C6: the determinism part applied to a concrete state and its
duplicate. -/
theorem stop_evaluator_deterministic_witness :
    evalStop { maxIterations := 3, terminationTool := "finish" }
        (initialState "q") =
      evalStop { maxIterations := 3, terminationTool := "finish" }
        (initialState "q") :=
  stop_evaluator_deterministic.1
    { maxIterations := 3, terminationTool := "finish" }
    (initialState "q") (initialState "q") rfl rfl rfl rfl rfl

/-- Claim C4: tool-level failures never abort the run.  An unregistered tool
name, a schema-violating payload, and an executor failure each become a
failed ToolResult carrying the matching taxonomy tag; and in the concrete
scenario where the Model Client first requests an unregistered tool, the
failed `UnknownTool` ToolResult is appended to the Message Log, recorded on
the audit trail, and the loop proceeds to a second Model Client call and a
normal final answer. -/
theorem tool_failures_never_abort :
    (∀ (reg : ToolRegistry) (req : ToolInvocationRequest),
      lookup reg req.name = none →
      dispatch reg req =
        { id := req.id, success := false, output := "UnknownTool"
          tag := some .unknownTool }) ∧
    (∀ (reg : ToolRegistry) (req : ToolInvocationRequest) (d : ToolDescriptor),
      lookup reg req.name = some d → d.schema req.input = false →
      dispatch reg req =
        { id := req.id, success := false, output := "SchemaViolation"
          tag := some .schemaViolation }) ∧
    (∀ (reg : ToolRegistry) (req : ToolInvocationRequest) (d : ToolDescriptor),
      lookup reg req.name = some d → d.schema req.input = true →
      (d.executor req.input).success = false →
      dispatch reg req =
        { id := req.id, success := false, output := (d.executor req.input).output
          tag := some .executorFailure }) ∧
    (let cfg : Config := { maxIterations := 5, terminationTool := "finish" }
     let client : ModelClient := fun log =>
       if log.length ≤ 1 then
         { text := none
           toolCalls := [{ name := "nosuch", id := "t1", input := "x" }] }
       else { text := some "done", toolCalls := [] }
     let failed : ToolResult :=
       { id := "t1", success := false, output := "UnknownTool"
         tag := some .unknownTool }
     let run := startRun cfg client reg₀ "q"
     toolResultMessage failed ∈ run.1.log ∧
       Event.toolDispatch { name := "nosuch", id := "t1", input := "x" } failed ∈
         run.2 ∧
       run.1.terminal = true ∧ run.1.iteration = 2 ∧
       run.1.final = some "done" ∧ run.1.reason = some .finalAnswer ∧
       countModelCalls run.2 = 2) := by
  refine ⟨?_, ?_, ?_, ?_⟩
  · intro reg req h
    simp [dispatch, h]
  · intro reg req d h hs
    simp [dispatch, h, hs]
  · intro reg req d h hs hf
    simp [dispatch, h, hs, hf]
  · decide

/-- Witness for C4: dispatching an unregistered tool name against the empty
registry. -/
theorem tool_failures_never_abort_witness :
    lookup reg₀ "nosuch" = none ∧
    dispatch reg₀ { name := "nosuch", id := "t1", input := "x" } =
      { id := "t1", success := false, output := "UnknownTool"
        tag := some .unknownTool } :=
  ⟨rfl, tool_failures_never_abort.1 reg₀
    { name := "nosuch", id := "t1", input := "x" } rfl⟩

/-- Claim C7: the LoopState goes from non-terminal to terminal exactly once
and nothing happens afterwards: `append` on a terminal state fails with
`InvalidSequence` leaving the log unchanged (on a live state it appends),
the loop never advances a terminal state, the terminal transition is the
last event of any trail, and a run from a live state records the transition
exactly once when it terminates and never otherwise. -/
theorem terminal_transition_once :
    (∀ (st : LoopState) (m : Message), st.terminal = true →
      appendMsg st m = .error .invalidSequence) ∧
    (∀ (st : LoopState) (m : Message), st.terminal = false →
      appendMsg st m = .ok (pushMsg st m)) ∧
    (∀ (cfg : Config) (client : ModelClient) (reg : ToolRegistry)
        (fuel : Nat) (st : LoopState), st.terminal = true →
      runLoop cfg client reg fuel st = (st, [])) ∧
    (∀ (cfg : Config) (client : ModelClient) (reg : ToolRegistry)
        (fuel : Nat) (st : LoopState),
      terminateLast (runLoop cfg client reg fuel st).2) ∧
    (∀ (cfg : Config) (client : ModelClient) (reg : ToolRegistry)
        (fuel : Nat) (st : LoopState), st.terminal = false →
      ((runLoop cfg client reg fuel st).1.terminal = true →
        terminateCount (runLoop cfg client reg fuel st).2 = 1) ∧
      ((runLoop cfg client reg fuel st).1.terminal = false →
        terminateCount (runLoop cfg client reg fuel st).2 = 0)) := by
  refine ⟨?_, ?_, ?_, terminateLast_runLoop, terminateCount_runLoop⟩
  · intro st m h
    simp [appendMsg, h]
  · intro st m h
    simp [appendMsg, h]
  · intro cfg client reg fuel st h
    cases fuel with
    | zero => exact runLoop_zero cfg client reg st
    | succ n => exact runLoop_terminal cfg client reg n st h

/-- Witness for C7: appending to a terminated state fails, while the same
append on the live initial state succeeds. -/
theorem terminal_transition_once_witness :
    ({ initialState "q" with terminal := true } : LoopState).terminal = true ∧
    appendMsg { initialState "q" with terminal := true }
        { role := .user, content := [] } = .error .invalidSequence ∧
    appendMsg (initialState "q") { role := .user, content := [] } =
      .ok (pushMsg (initialState "q") { role := .user, content := [] }) :=
  ⟨rfl,
   terminal_transition_once.1 { initialState "q" with terminal := true }
     { role := .user, content := [] } rfl,
   terminal_transition_once.2.1 (initialState "q")
     { role := .user, content := [] } rfl⟩

/-- Witness for C1: the bounded part applied at a concrete configuration and
state. -/
theorem orchestrator_iteration_invariant_witness :
    (initialState "hi").iteration ≤
      ({ maxIterations := 3, terminationTool := "finish" } : Config).maxIterations ∧
    (runLoop { maxIterations := 3, terminationTool := "finish" }
        (fun _ => { text := some "ok", toolCalls := [] }) reg₀ 5
        (initialState "hi")).1.iteration ≤ 3 :=
  ⟨by decide,
   orchestrator_iteration_invariant.2.1
     { maxIterations := 3, terminationTool := "finish" }
     (fun _ => { text := some "ok", toolCalls := [] }) reg₀ 5
     (initialState "hi") (by decide)⟩

/-! ## ResearchTab and GoogleDriveTab lemmas -/

theorem handleAddLink_nodup (isURL : String → Bool) (links : List String)
    (s : String) (h : links.Nodup) : (handleAddLink isURL links s).Nodup := by
  simp only [handleAddLink]
  split_ifs with h1 h2 h3 h4 h5
  · exact h
  · exact h
  · simp [List.nodup_append, h, h3]
  · exact h
  · simp [List.nodup_append, h, h5]
  · exact h

theorem foldl_applyLinkOp_nodup (isURL : String → Bool) (ops : List LinkOp) :
    ∀ links : List String, links.Nodup →
      (ops.foldl (applyLinkOp isURL) links).Nodup := by
  induction ops with
  | nil => intro l h; simpa using h
  | cons op ops ih =>
    intro l h
    simp only [List.foldl_cons]
    apply ih
    cases op with
    | add s => exact handleAddLink_nodup isURL l s h
    | remove s => exact h.filter _
    | reset => exact List.nodup_nil

theorem navRun_shape (ops : List DriveNavOp) :
    ∀ (stack rest : List FolderEntry), stack = rootEntry :: rest →
      ∃ rest', ops.foldl applyNavOp stack = rootEntry :: rest' := by
  induction ops with
  | nil => intro stack rest h; exact ⟨rest, by simpa using h⟩
  | cons op ops ih =>
    intro stack rest h
    simp only [List.foldl_cons]
    cases op with
    | click f =>
      exact ih _ (rest ++ [{ id := some f.id, name := f.name }])
        (by simp [applyNavOp, handleFolderClick, h])
    | back =>
      cases rest with
      | nil =>
        refine ih _ [] ?_
        simp [applyNavOp, handleBack, h]
      | cons b bs =>
        refine ih _ ((b :: bs).dropLast) ?_
        subst h
        simp [applyNavOp, handleBack, List.dropLast]

/-- Claim C8: `handleAddLink` never produces a duplicate entry.  Every
`links` state the ResearchTab component can reach is duplicate-free, a
single `handleAddLink` preserves duplicate-freeness, and its behaviour is
exactly: a valid trimmed input is appended only when absent; an invalid one
is retried with the `https://` prefix and appended only when that form is
valid and absent; otherwise — both forms invalid, or blank input — the list
is unchanged. -/
theorem handleAddLink_no_duplicates :
    (∀ (isURL : String → Bool) (ops : List LinkOp),
      (runLinkOps isURL ops).Nodup) ∧
    (∀ (isURL : String → Bool) (links : List String) (s : String),
      links.Nodup → (handleAddLink isURL links s).Nodup) ∧
    (∀ (isURL : String → Bool) (links : List String) (s : String),
      s.trim ≠ "" → isURL s.trim = true →
      handleAddLink isURL links s =
        if s.trim ∈ links then links else links ++ [s.trim]) ∧
    (∀ (isURL : String → Bool) (links : List String) (s : String),
      s.trim ≠ "" → isURL s.trim = false →
      isURL ("https://" ++ s.trim) = true →
      handleAddLink isURL links s =
        if ("https://" ++ s.trim) ∈ links then links
        else links ++ ["https://" ++ s.trim]) ∧
    (∀ (isURL : String → Bool) (links : List String) (s : String),
      isURL s.trim = false → isURL ("https://" ++ s.trim) = false →
      handleAddLink isURL links s = links) ∧
    (∀ (isURL : String → Bool) (links : List String) (s : String),
      s.trim = "" → handleAddLink isURL links s = links) := by
  refine ⟨?_, handleAddLink_nodup, ?_, ?_, ?_, ?_⟩
  · intro isURL ops
    exact foldl_applyLinkOp_nodup isURL ops [] (by simp)
  · intro isURL links s h1 h2
    simp [handleAddLink, h1, h2]
  · intro isURL links s h1 h2 h3
    simp [handleAddLink, h1, h2, h3]
  · intro isURL links s h2 h3
    by_cases h1 : s.trim = "" <;> simp [handleAddLink, h1, h2, h3]
  · intro isURL links s h1
    simp [handleAddLink, h1]

/-- Witness for C8: adding a fresh valid link to a duplicate-free list. -/
theorem handleAddLink_no_duplicates_witness :
    (["https://a.com"] : List String).Nodup ∧
    (handleAddLink (fun _ => true) ["https://a.com"] "https://b.com").Nodup :=
  ⟨by decide,
   handleAddLink_no_duplicates.2.1 (fun _ => true) ["https://a.com"]
     "https://b.com" (by decide)⟩

/-- Claim C9: the GoogleDriveTab folder stack is never empty and always has
the root entry `{ id: null, name: 'My Drive' }` first: every reachable
stack is the root followed by the visited folders, `handleFolderClick` only
pushes an entry, and `handleBack` pops exactly one entry when more than the
root is present and leaves the stack unchanged otherwise. -/
theorem folder_stack_invariant :
    (∀ ops : List DriveNavOp,
      runNavOps ops ≠ [] ∧ (runNavOps ops).head? = some rootEntry) ∧
    (∀ (stack : List FolderEntry) (f : GoogleFile),
      handleFolderClick stack f =
        stack ++ [{ id := some f.id, name := f.name }]) ∧
    (∀ stack : List FolderEntry, stack.length ≤ 1 →
      handleBack stack = stack) ∧
    (∀ stack : List FolderEntry, 1 < stack.length →
      handleBack stack = stack.dropLast) := by
  refine ⟨?_, fun stack f => rfl, ?_, ?_⟩
  · intro ops
    obtain ⟨rest, hrest⟩ := navRun_shape ops initialFolderStack [] rfl
    rw [runNavOps, hrest]
    simp
  · intro stack h
    simp only [handleBack]
    split_ifs with h1
    · omega
    · rfl
  · intro stack h
    simp [handleBack, h]

/-- Witness for C9: `handleBack` on the lone root entry is a no-op. -/
theorem folder_stack_invariant_witness :
    ([rootEntry] : List FolderEntry).length ≤ 1 ∧
    handleBack [rootEntry] = [rootEntry] :=
  ⟨by decide, folder_stack_invariant.2.2.1 [rootEntry] (by decide)⟩

end NoobBook
